import Mathlib

/-
Verification of the patch decomposition / measure-ordered reconstruction
pipeline of `src/archive/patch_proposals.py`.

Images and patch batches are modelled as dense tensors: a shape together
with a row-major flat data buffer, exactly the layout the numpy / tensorflow
operations in the source manipulate.  Each library operation used by the
source (`tf.reshape`, `tf.space_to_batch_nd`, `tf.split`, `tf.stack`,
`np.equal` / `tf.math.equal` with broadcasting, `np.all` / `tf.reduce_all`)
is embedded by its documented semantics, and the source functions
(`generate_patches_v2`, `image_data_conserved`,
`reconstruction_conserves_data`, `p_por`) are translated on top of them.
-/

/-- A dense tensor: a shape and a row-major flat data buffer.
Models a numpy/tensorflow array of integer pixel intensities. -/
structure Tensor where
  shape : List Nat
  data : List Int
deriving Repr, DecidableEq, Inhabited

/-- Row-major flat offset of a multi-index `idx` within `shape`. -/
def flatIdx (shape idx : List Nat) : Nat :=
  (shape.zip idx).foldl (fun acc p => acc * p.1 + p.2) 0

/-- Element of a tensor at a multi-index (0 outside the buffer). -/
def Tensor.item (t : Tensor) (idx : List Nat) : Int :=
  t.data.getD (flatIdx t.shape idx) 0

/-- All multi-indices of a shape, enumerated in row-major order. -/
def allIdx : List Nat → List (List Nat)
  | [] => [[]]
  | d :: ds => (List.range d).flatMap fun i => (allIdx ds).map fun idx => i :: idx

/-- `tf.reshape`: reinterprets the flat buffer under a new shape.  At most one
entry of the shape specification may be `-1`, standing for a dimension
inferred from the element count; the element count must match. -/
def tfReshape (t : Tensor) (spec : List Int) : Option Tensor :=
  let negs := spec.filter fun d => d < 0
  if negs = [] then
    let dims := spec.map Int.toNat
    if dims.prod = t.data.length then some ⟨dims, t.data⟩ else none
  else if negs = [-1] then
    let known := ((spec.filter fun d => 0 ≤ d).map Int.toNat).prod
    if 0 < known ∧ known ∣ t.data.length then
      some ⟨spec.map fun d => if d < 0 then t.data.length / known else d.toNat,
            t.data⟩
    else none
  else none

/-- `tf.space_to_batch_nd` on a rank-4 input with a 2-D block shape and zero
paddings (the only way the source calls it): the spatial dimensions must be
divisible by the block sides; block offsets move into the batch dimension.
Output element `[(r*q + s)*b + bi, gi, gj, ch]` is input element
`[bi, gi*p + r, gj*q + s, ch]`. -/
def spaceToBatchND (t : Tensor) (p q : Nat) : Option Tensor :=
  match t.shape with
  | [b, h, w, c] =>
    if 0 < p ∧ 0 < q ∧ h % p = 0 ∧ w % q = 0 then
      some ⟨[b * p * q, h / p, w / q, c],
        (List.range (b * p * q)).flatMap fun o =>
          (List.range (h / p)).flatMap fun gi =>
            (List.range (w / q)).flatMap fun gj =>
              (List.range c).map fun ch =>
                t.item [o % b, gi * p + o / b / q, gj * q + o / b % q, ch]⟩
    else none
  | _ => none

/-- `tf.split(value, n, 0)`: splits the first dimension into `n` equal parts. -/
def tfSplit0 (t : Tensor) (n : Nat) : Option (List Tensor) :=
  match t.shape with
  | [] => none
  | d0 :: rest =>
    if 0 < n ∧ d0 % n = 0 then
      let chunk := d0 / n * rest.prod
      some ((List.range n).map fun i =>
        ⟨d0 / n :: rest, (t.data.drop (i * chunk)).take chunk⟩)
    else none

/-- `tf.stack(tensors, 3)`: stacks equally-shaped tensors along a new axis
inserted at position 3. -/
def tfStack3 (ts : List Tensor) : Option Tensor :=
  let s := (ts.headD default).shape
  if ts ≠ [] ∧ (∀ t ∈ ts, t.shape = s) ∧ 3 ≤ s.length then
    let pre := s.take 3
    let post := s.drop 3
    let q := post.prod
    some ⟨pre ++ ts.length :: post,
      (List.range pre.prod).flatMap fun o =>
        ts.flatMap fun t => (t.data.drop (o * q)).take q⟩
  else none

/-- Errors of the pipeline, as the specification classifies them: shape /
dimension violations, and an unrecognized measure identifier. -/
inductive PipelineError where
  | shapeError
  | unsupportedMeasureError
deriving Repr, DecidableEq

/-- A failed library operation surfaces as a shape error. -/
def liftShape {α : Type} : Option α → Except PipelineError α
  | some a => .ok a
  | none => .error .shapeError

/-- `generate_patches_v2(image, input_h, input_w, patch_h, patch_w, pad)`:
reshape the image to `[input_h, input_w, 3]`, assert that image and patch are
square, wrap the image into a batch of one, apply `space_to_batch_nd` with
block `[patch_h, patch_w]` and zero padding (the `pad` branch performs the
identical call), split the block-offset batch into `patch_h*patch_w` pieces,
stack them along a new axis 3 and reshape to `[-1, patch_h, patch_w, 3]`. -/
def generate_patches_v2 (image : Tensor) (input_h input_w patch_h patch_w : Nat)
    (pad : Bool) : Except PipelineError Tensor := do
  let img ← liftShape (tfReshape image [(input_h : Int), (input_w : Int), 3])
  let image_h := input_h
  let image_w := input_w
  let image_ch : Int := 3
  let p_area := patch_h * patch_w
  if image_h = image_w ∧ patch_h = patch_w then
    let expanded : Tensor := ⟨1 :: img.shape, img.data⟩
    let patches ← liftShape (if pad then spaceToBatchND expanded patch_h patch_w
                             else spaceToBatchND expanded patch_h patch_w)
    let parts ← liftShape (tfSplit0 patches p_area)
    let stacked ← liftShape (tfStack3 parts)
    liftShape (tfReshape stacked [-1, (patch_h : Int), (patch_w : Int), image_ch])
  else
    .error .shapeError

/-- Numpy-style broadcast of two shapes, aligned from the trailing dimension:
each dimension pair must be equal or contain a 1. -/
def broadcastRev : List Nat → List Nat → Option (List Nat)
  | [], s => some s
  | s, [] => some s
  | a :: as, b :: bs =>
    if a = b ∨ a = 1 ∨ b = 1 then
      (broadcastRev as bs).map fun s => (if a = 1 then b else a) :: s
    else none

/-- Broadcast shape of two operand shapes, `none` when incompatible. -/
def broadcastShapes (s1 s2 : List Nat) : Option (List Nat) :=
  (broadcastRev s1.reverse s2.reverse).map List.reverse

/-- Element of `t` addressed by a multi-index of the broadcast result shape:
leading extra dimensions are dropped and size-1 dimensions are pinned to 0. -/
def bcastItem (t : Tensor) (idx : List Nat) : Int :=
  let idx' := idx.drop (idx.length - t.shape.length)
  t.item ((t.shape.zip idx').map fun p => if p.1 = 1 then 0 else p.2)

/-- `np.equal(a, b)`: broadcasting elementwise equality, as a 0/1 tensor;
`none` when the shapes are not broadcast-compatible (numpy raises). -/
def npEqual (a b : Tensor) : Option Tensor :=
  match broadcastShapes a.shape b.shape with
  | none => none
  | some s =>
    some ⟨s, (allIdx s).map fun idx => if bcastItem a idx = bcastItem b idx then 1 else 0⟩

/-- `np.all`: true when every element is truthy (nonzero). -/
def npAll (t : Tensor) : Bool :=
  t.data.all fun v => v ≠ 0

/-- `reconstruction_conserves_data(original, reconstructed)`:
`np.all(np.equal(original, reconstructed))`. -/
def reconstruction_conserves_data (original reconstructed : Tensor) : Option Bool :=
  (npEqual original reconstructed).map npAll

/-- `tf.math.equal(a, b)`: broadcasting elementwise equality, as a 0/1 tensor;
`none` when the shapes are not broadcast-compatible (tensorflow raises). -/
def tfMathEqual (a b : Tensor) : Option Tensor :=
  match broadcastShapes a.shape b.shape with
  | none => none
  | some s =>
    some ⟨s, (allIdx s).map fun idx => if bcastItem a idx = bcastItem b idx then 1 else 0⟩

/-- `tf.reduce_all`: true when every element is truthy (nonzero). -/
def tfReduceAll (t : Tensor) : Bool :=
  t.data.all fun v => v ≠ 0

/-- `image_data_conserved(original, reconstructed)`:
`tf.reduce_all(tf.math.equal(original, reconstructed))`. -/
def image_data_conserved (original reconstructed : Tensor) : Option Bool :=
  (tfMathEqual original reconstructed).map tfReduceAll

/-- The ten measure identifiers the pipeline supports (spec §3, §9). -/
def supportedMeasures : List String :=
  ["KL", "MI", "CE", "L1", "L2", "MAX_NORM", "JE", "ENTROPY", "SSIM", "PSNR"]

/-- Ordering strategy of the reconstructor: identity (row-major) placement, or
a permutation driven by the per-patch measure score. -/
inductive OrderingStrategy where
  | identity
  | byMeasure
deriving Repr, DecidableEq

/-- The patches of a batch tensor `[n, ...]`, as `n` tensors of the residual
shape, each a contiguous slice of the flat buffer. -/
def patchList (t : Tensor) : List Tensor :=
  match t.shape with
  | [] => []
  | n :: rest =>
    let chunk := rest.prod
    (List.range n).map fun k => ⟨rest, (t.data.drop (k * chunk)).take chunk⟩

/-- Row-major placement of a patch sequence onto the grid of an image of
shape `[height, width, c]`: pixel `(i, j, ch)` is read from patch
`(i/ph)*(width/pw) + j/pw` at offset `(i%ph, j%pw, ch)`. -/
def assemble (ordered : List Tensor) (height width ph pw c : Nat) : Tensor :=
  ⟨[height, width, c],
    (List.range height).flatMap fun i =>
      (List.range width).flatMap fun j =>
        (List.range c).map fun ch =>
          (ordered.getD (i / ph * (width / pw) + j / pw) default).item
            [i % ph, j % pw, ch]⟩

/-- Modelled from the spec: `reconstruct_from_patches` lives in the module
`curriculum_factory`, which is not under `src/`; this definition follows
spec §4.2.  Inputs: the patch batch `[n, ph, pw, c]`, the target image
dimensions, a measure identifier and an ordering strategy; the measure
evaluator is an external collaborator, passed as a function.  An unknown
measure identifier fails with `UnsupportedMeasureError`; a patch count not
matching the `(height/ph)*(width/pw)` grid fails with `ShapeError`.
Otherwise the sequence, reordered by a stable sort on measure scores when the
strategy asks for it, is placed row-major onto the grid. -/
def reconstruct_from_patches (evalMeasure : String → Tensor → Int)
    (patches : Tensor) (height width : Nat) (measure : String)
    (ordering : OrderingStrategy) : Except PipelineError Tensor :=
  if measure ∈ supportedMeasures then
    match patches.shape with
    | [n, ph, pw, c] =>
      if 0 < ph ∧ 0 < pw ∧ ph ∣ height ∧ pw ∣ width ∧
          n = height / ph * (width / pw) then
        let ps := patchList patches
        let ordered := match ordering with
          | .identity => ps
          | .byMeasure =>
            ps.mergeSort fun a b =>
              decide (evalMeasure measure a ≤ evalMeasure measure b)
        .ok (assemble ordered height width ph pw c)
      else .error .shapeError
    | _ => .error .shapeError
  else .error .unsupportedMeasureError

/-- `p_por(image, height, width, measure, ordering, patch_h, patch_w)`:
asserts equal patch sides, splits with `generate_patches_v2` and reconstructs
with `reconstruct_from_patches`. -/
def p_por (evalMeasure : String → Tensor → Int) (image : Tensor)
    (height width : Nat) (measure : String) (ordering : OrderingStrategy)
    (patch_h patch_w : Nat) : Except PipelineError Tensor :=
  if patch_h = patch_w then do
    let patches ← generate_patches_v2 image height width patch_h patch_w false
    reconstruct_from_patches evalMeasure patches height width measure ordering
  else .error .shapeError

/-- The non-overlapping `ph × pw` blocks of an image of shape `[h, w, c]`,
in row-major grid order: the pixel blocks sitting in the grid cells. -/
def gridBlocks (t : Tensor) (ph pw : Nat) : List Tensor :=
  match t.shape with
  | [h, w, c] =>
    (List.range (h / ph)).flatMap fun i =>
      (List.range (w / pw)).map fun j =>
        ⟨[ph, pw, c],
          (List.range ph).flatMap fun r =>
            (List.range pw).flatMap fun s =>
              (List.range c).map fun ch =>
                t.item [i * ph + r, j * pw + s, ch]⟩
  | _ => []

/-- The block decomposition of a flat image buffer `d` of an `N x N x 3` image
into `(N/p)^2` square patches of side `p`, row-major in every level: the data
of the patch batch that `generate_patches_v2` produces. -/
def genData (d : List Int) (N p : Nat) : List Int :=
  (List.range (N / p * (N / p))).flatMap fun k =>
    (List.range p).flatMap fun r =>
      (List.range p).flatMap fun c =>
        (List.range 3).map fun ch =>
          d.getD (((k / (N / p) * p + r) * N + (k % (N / p) * p + c)) * 3 + ch) 0

/-- A small concrete image used by the witnesses: 2 x 2 x 3, all zeros. -/
def imgW : Tensor := ⟨[2, 2, 3], List.replicate 12 0⟩

/-- A concrete 224 x 224 x 3 image for the C3 witness. -/
def zeros224 : Tensor := ⟨[224, 224, 3], List.replicate (224 * 224 * 3) 0⟩

/-! ### List and index arithmetic toolkit -/

/-- Element of a mapped range at a valid position. -/
theorem getD_map_range {α : Type} (n k : Nat) (f : Nat → α) (d : α) (hk : k < n) :
    ((List.range n).map f).getD k d = f k := by
  have hlen : k < ((List.range n).map f).length := by simpa using hk
  rw [List.getD_eq_getElem _ _ hlen]
  simp

/-- A nested iteration over two ranges flattens to a single range with
row-major index decoding. -/
theorem flatMap_range_eq {α : Type} (a b : Nat) (f : Nat → Nat → α) :
    ((List.range a).flatMap fun i => (List.range b).map fun j => f i j)
      = (List.range (a * b)).map fun n => f (n / b) (n % b) := by
  induction a with
  | zero => simp
  | succ a ih =>
    rw [List.range_succ, List.flatMap_append, ih, Nat.succ_mul, List.range_add,
      List.map_append, List.map_map]
    simp only [List.flatMap_cons, List.flatMap_nil, List.append_nil]
    congr 1
    apply List.map_congr_left
    intro j hj
    have hj' : j < b := List.mem_range.mp hj
    have hb : 0 < b := by omega
    have h1 : (a * b + j) / b = a := by
      rw [Nat.mul_comm a b, Nat.mul_add_div hb, Nat.div_eq_of_lt hj', Nat.add_zero]
    have h2 : (a * b + j) % b = j := by
      rw [Nat.mul_comm a b, Nat.mul_add_mod, Nat.mod_eq_of_lt hj']
    simp [Function.comp, h1, h2]

/-- A contiguous slice of a mapped range is a mapped range over shifted
indices. -/
theorem slice_map_range {α : Type} (n a b : Nat) (f : Nat → α) (hab : a + b ≤ n) :
    ((((List.range n).map f).drop a).take b) = (List.range b).map fun i => f (a + i) := by
  have hn : n = a + (n - a) := by omega
  rw [hn, List.range_add, List.map_append,
    List.drop_append_of_le_length (by simp),
    List.drop_eq_nil_of_le (by simp), List.nil_append,
    List.map_map, ← List.map_take, List.take_range]
  have hmin : min b (n - a) = b := by omega
  rw [hmin]
  simp [Function.comp]

/-- Reading every position of a list back in order reproduces the list. -/
theorem map_getD_range {α : Type} (l : List α) (d : α) :
    (List.range l.length).map (fun n => l.getD n d) = l := by
  apply List.ext_getElem
  · simp
  · intro n h1 h2
    simp only [List.getElem_map, List.getElem_range]
    rw [List.getD_eq_getElem _ _ h2]

/-- Quotient of a row-major encoded pair. -/
theorem encode_div (b i j : Nat) (hj : j < b) : (i * b + j) / b = i := by
  have hb : 0 < b := by omega
  rw [Nat.mul_comm i b, Nat.mul_add_div hb, Nat.div_eq_of_lt hj, Nat.add_zero]

/-- Remainder of a row-major encoded pair. -/
theorem encode_mod (b i j : Nat) (hj : j < b) : (i * b + j) % b = j := by
  rw [Nat.mul_comm i b, Nat.mul_add_mod, Nat.mod_eq_of_lt hj]

/-- A row-major encoded pair is within the total extent. -/
theorem encode_lt (a b i j : Nat) (hi : i < a) (hj : j < b) : i * b + j < a * b := by
  calc i * b + j < i * b + b := by omega
  _ = (i + 1) * b := by ring
  _ ≤ a * b := Nat.mul_le_mul_right b hi

/-- Head of a mapped nonempty range. -/
theorem headD_map_range {α : Type} (n : Nat) (f : Nat → α) (d : α) (hn : 0 < n) :
    ((List.range n).map f).headD d = f 0 := by
  obtain ⟨m, rfl⟩ : ∃ m, n = m + 1 := ⟨n - 1, by omega⟩
  rw [List.range_succ_eq_map]
  simp

/-- Congruence for `flatMap` under pointwise equal bodies. -/
theorem flatMap_congr {α β : Type} (l : List α) (f g : α → List β)
    (h : ∀ a ∈ l, f a = g a) : l.flatMap f = l.flatMap g := by
  induction l with
  | nil => rfl
  | cons x xs ih =>
    simp only [List.flatMap_cons]
    rw [h x (by simp), ih fun a ha => h a (by simp [ha])]

theorem liftShape_bind_some {α β : Type} (x : α) (f : α → Except PipelineError β) :
    (liftShape (some x) >>= f) = f x := rfl

theorem tfReshape_exact (t : Tensor) (a b : Nat)
    (h : a * (b * 3) = t.data.length) :
    tfReshape t [(a : Int), (b : Int), 3] = some ⟨[a, b, 3], t.data⟩ := by
  have hfil : ([(a : Int), (b : Int), 3].filter fun d => d < 0) = [] := by
    simp [List.filter, Int.not_lt.mpr (Int.natCast_nonneg a),
      Int.not_lt.mpr (Int.natCast_nonneg b)]
  have hdims : ([(a : Int), (b : Int), 3].map Int.toNat) = [a, b, 3] := by simp
  simp only [tfReshape, hfil, hdims]
  rw [if_pos trivial, if_pos (by simp [List.prod_cons]; omega)]

theorem tfReshape_infer (t : Tensor) (a b : Nat)
    (hpos : 0 < a * (b * 3)) (hdvd : a * (b * 3) ∣ t.data.length) :
    tfReshape t [-1, (a : Int), (b : Int), 3] =
      some ⟨[t.data.length / (a * (b * 3)), a, b, 3], t.data⟩ := by
  have hfil : ([(-1 : Int), (a : Int), (b : Int), 3].filter fun d => d < 0)
      = [-1] := by
    simp [List.filter, Int.not_lt.mpr (Int.natCast_nonneg a),
      Int.not_lt.mpr (Int.natCast_nonneg b)]
  have hfil2 : ([(-1 : Int), (a : Int), (b : Int), 3].filter fun d => 0 ≤ d)
      = [(a : Int), (b : Int), 3] := by
    simp [List.filter, Int.natCast_nonneg]
  have hdims : ([(a : Int), (b : Int), 3].map Int.toNat) = [a, b, 3] := by simp
  have hmap : (List.map (fun d => if d < 0 then t.data.length / ([a, b, 3] : List Nat).prod else d.toNat)
      [(-1 : Int), (a : Int), (b : Int), 3])
      = [t.data.length / ([a, b, 3] : List Nat).prod, a, b, 3] := by
    simp [Int.not_lt.mpr (Int.natCast_nonneg a), Int.not_lt.mpr (Int.natCast_nonneg b)]
  have hprod : ([a, b, 3] : List Nat).prod = a * (b * 3) := by simp [List.prod_cons]
  simp only [tfReshape, hfil, hfil2, hdims]
  rw [if_neg (by simp), if_pos trivial, if_pos (by rw [hprod]; exact ⟨hpos, hdvd⟩), hmap, hprod]

theorem spaceToBatchND_eq (d : List Int) (b h w c p q : Nat)
    (hp : 0 < p) (hq : 0 < q) (hh : h % p = 0) (hw : w % q = 0) :
    spaceToBatchND ⟨[b, h, w, c], d⟩ p q =
      some ⟨[b * p * q, h / p, w / q, c],
        (List.range (b * p * q)).flatMap fun o =>
          (List.range (h / p)).flatMap fun gi =>
            (List.range (w / q)).flatMap fun gj =>
              (List.range c).map fun ch =>
                Tensor.item ⟨[b, h, w, c], d⟩
                  [o % b, gi * p + o / b / q, gj * q + o / b % q, ch]⟩ := by
  simp only [spaceToBatchND]
  rw [if_pos ⟨hp, hq, hh, hw⟩]

theorem tfSplit0_eq (d : List Int) (d0 : Nat) (rest : List Nat) (n : Nat)
    (hn : 0 < n) (hmod : d0 % n = 0) :
    tfSplit0 ⟨d0 :: rest, d⟩ n =
      some ((List.range n).map fun i =>
        ⟨d0 / n :: rest, (d.drop (i * (d0 / n * rest.prod))).take (d0 / n * rest.prod)⟩) := by
  simp only [tfSplit0]
  rw [if_pos ⟨hn, hmod⟩]

theorem tfStack3_eq (n : Nat) (hn : 0 < n) (f : Nat → List Int) (s : List Nat)
    (h3 : 3 ≤ s.length) :
    tfStack3 ((List.range n).map fun k => ⟨s, f k⟩) =
      some ⟨s.take 3 ++ n :: s.drop 3,
        (List.range (s.take 3).prod).flatMap fun o =>
          (List.range n).flatMap fun k =>
            ((f k).drop (o * (s.drop 3).prod)).take ((s.drop 3).prod)⟩ := by
  have hne : ((List.range n).map fun k => (⟨s, f k⟩ : Tensor)) ≠ [] := by
    simp
    omega
  have hhead : (((List.range n).map fun k => (⟨s, f k⟩ : Tensor)).headD default).shape = s := by
    rw [headD_map_range n _ _ hn]
  have hall : ∀ t ∈ (List.range n).map fun k => (⟨s, f k⟩ : Tensor),
      t.shape = (((List.range n).map fun k => (⟨s, f k⟩ : Tensor)).headD default).shape := by
    intro t ht
    rw [hhead]
    obtain ⟨k, hk, rfl⟩ := List.mem_map.mp ht
    rfl
  simp only [tfStack3, hhead]
  rw [if_pos ⟨hne, by rw [hhead] at hall; exact hall, h3⟩]
  congr 2
  · simp
  · simp only [List.flatMap_map]


theorem genData_length (d : List Int) (N p : Nat) :
    (genData d N p).length = N / p * (N / p) * (p * (p * 3)) := by
  unfold genData
  simp only [flatMap_range_eq]
  simp

theorem slice3 (T C : Nat) (F : Nat → Int) (o k : Nat)
    (hk : k * C + C ≤ T) (ho : o * 3 + 3 ≤ C) :
    List.take 3 (List.drop (o * 3) (List.take C (List.drop (k * C)
        ((List.range T).map F))))
      = (List.range 3).map fun ch => F (k * C + (o * 3 + ch)) := by
  have h1 := slice_map_range T (k * C) C F hk
  rw [show List.take C (List.drop (k * C) ((List.range T).map F))
      = (((List.range T).map F).drop (k * C)).take C from rfl, h1]
  have h2 := slice_map_range C (o * 3) 3 (fun i => F (k * C + i)) ho
  rw [show List.take 3 (List.drop (o * 3) ((List.range C).map fun i => F (k * C + i)))
      = ((((List.range C)).map fun i => F (k * C + i)).drop (o * 3)).take 3 from rfl, h2]

theorem stageData_norm (d : List Int) (N p : Nat) (hp : 0 < p) :
    ((List.range (N / p * (N / p))).flatMap fun o =>
      (List.range (p * p)).flatMap fun k =>
        List.take 3
          (List.drop (o * 3)
            (List.take (N / p * (N / p * 3))
              (List.drop (k * (N / p * (N / p * 3)))
                ((List.range (p * p)).flatMap fun o2 =>
                  (List.range (N / p)).flatMap fun gi =>
                    (List.range (N / p)).flatMap fun gj =>
                      List.map
                        (fun ch => d.getD (((gi * p + o2 / p) * N + (gj * p + o2 % p)) * 3 + ch) 0)
                        (List.range 3))))))
      = genData d N p := by
  unfold genData
  simp only [flatMap_range_eq]
  refine Eq.trans (flatMap_congr _ _ _ fun o ho =>
    flatMap_congr _ _ _ fun k hk =>
      slice3 (p * p * (N / p * (N / p * 3))) (N / p * (N / p * 3)) _ o k
        (by
          have h := List.mem_range.mp hk
          calc k * (N / p * (N / p * 3)) + N / p * (N / p * 3)
              = (k + 1) * (N / p * (N / p * 3)) := by ring
          _ ≤ p * p * (N / p * (N / p * 3)) := Nat.mul_le_mul_right _ h)
        (by
          have h := List.mem_range.mp ho
          calc o * 3 + 3 = (o + 1) * 3 := by ring
          _ ≤ N / p * (N / p) * 3 := Nat.mul_le_mul_right _ h
          _ = N / p * (N / p * 3) := by ring)) ?_
  simp only [flatMap_range_eq]
  rw [mul_assoc p p 3]
  apply List.map_congr_left
  intro m hm
  have hm' : m < N / p * (N / p) * (p * (p * 3)) := List.mem_range.mp hm
  have hg : 0 < N / p := by
    rcases Nat.eq_zero_or_pos (N / p) with h | h
    · rw [h] at hm'
      simp at hm'
    · exact h
  set g := N / p with hgdef
  set m2 := m % (p * (p * 3)) with hm2def
  set o := m / (p * (p * 3)) with hodef
  have hm2lt : m2 < p * (p * 3) := Nat.mod_lt _ (by positivity)
  have holt : o < g * g := by
    apply Nat.div_lt_of_lt_mul
    calc m < g * g * (p * (p * 3)) := hm'
    _ = p * (p * 3) * (g * g) := by ring
  set k := m2 / 3 with hkdef
  have hklt : k < p * p := by
    apply Nat.div_lt_of_lt_mul
    calc m2 < p * (p * 3) := hm2lt
    _ = 3 * (p * p) := by ring
  have hchlt : m2 % 3 < 3 := Nat.mod_lt _ (by norm_num)
  have hoc : o * 3 + m2 % 3 < g * (g * 3) := by
    calc o * 3 + m2 % 3 < g * g * 3 := encode_lt (g * g) 3 o (m2 % 3) holt hchlt
    _ = g * (g * 3) := by ring
  rw [encode_div (g * (g * 3)) k (o * 3 + m2 % 3) hoc,
    encode_mod (g * (g * 3)) k (o * 3 + m2 % 3) hoc]
  have hsplit : o * 3 + m2 % 3 = o / g * (g * 3) + (o % g * 3 + m2 % 3) := by
    conv_lhs => rw [← Nat.div_add_mod o g]
    ring
  have hbound : o % g * 3 + m2 % 3 < g * 3 :=
    encode_lt g 3 (o % g) (m2 % 3) (Nat.mod_lt o hg) hchlt
  rw [hsplit, encode_div (g * 3) (o / g) _ hbound, encode_mod (g * 3) (o / g) _ hbound,
    encode_div 3 (o % g) (m2 % 3) hchlt, encode_mod 3 (o % g) (m2 % 3) hchlt]
  have hR : k / p = m2 / (p * 3) := by
    rw [hkdef, Nat.div_div_eq_div_mul, Nat.mul_comm 3 p]
  have hCc : k % p = m2 % (p * 3) / 3 := by
    rw [hkdef, ← Nat.mod_mul_right_div_self, Nat.mul_comm 3 p]
  have hCH : m2 % 3 = m2 % (p * 3) % 3 := (Nat.mod_mod_of_dvd m2 ⟨p, by ring⟩).symm
  rw [hR, hCc, hCH]

theorem generate_patches_v2_eq (image : Tensor) (N p : Nat) (pad : Bool)
    (hlen : image.data.length = N * N * 3) (hp : 0 < p) (hdvd : p ∣ N) :
    generate_patches_v2 image N N p p pad =
      .ok ⟨[N / p * (N / p), p, p, 3], genData image.data N p⟩ := by
  have hmod : N % p = 0 := by
    obtain ⟨m, rfl⟩ := hdvd
    exact Nat.mul_mod_right p m
  have hpp : 0 < p * p := by positivity
  unfold generate_patches_v2
  rw [tfReshape_exact image N N (by rw [hlen]; ring)]
  simp only [liftShape_bind_some]
  simp only [ite_self]
  rw [if_pos (by exact ⟨by trivial, by trivial⟩)]
  rw [show (⟨1 :: (⟨[N, N, 3], image.data⟩ : Tensor).shape, (⟨[N, N, 3], image.data⟩ : Tensor).data⟩ : Tensor) = ⟨[1, N, N, 3], image.data⟩ from rfl]
  rw [spaceToBatchND_eq image.data 1 N N 3 p p hp hp hmod hmod]
  simp only [liftShape_bind_some]
  rw [show ([(1 : Nat) * p * p, N / p, N / p, 3] : List Nat) = (1 * p * p) :: [N / p, N / p, 3] from rfl]
  rw [tfSplit0_eq _ (1 * p * p) [N / p, N / p, 3] (p * p) hpp (by simp [Nat.mod_self])]
  simp only [liftShape_bind_some]
  rw [tfStack3_eq (p * p) hpp _ ((1 * p * p / (p * p)) :: [N / p, N / p, 3]) (by simp)]
  simp only [liftShape_bind_some]
  have e1 : 1 * p * p / (p * p) = 1 := by rw [one_mul, Nat.div_self hpp]
  have e2 : p * p / (p * p) = 1 := Nat.div_self hpp
  simp only [e1, e2, List.take_succ_cons, List.take_zero, List.drop_succ_cons, List.drop_zero,
    List.prod_cons, List.prod_nil, one_mul, mul_one, Nat.mod_one, Nat.div_one,
    Tensor.item, flatIdx, List.zip_cons_cons, List.zip_nil_right, List.foldl_cons,
    List.foldl_nil, zero_mul, zero_add, add_zero, List.cons_append, List.nil_append]
  rw [stageData_norm image.data N p hp]
  have hdvd3 : p * (p * 3) ∣ (genData image.data N p).length := by
    rw [genData_length]
    exact dvd_mul_left _ _
  rw [tfReshape_infer _ p p (by positivity) hdvd3]
  have hquot : (genData image.data N p).length / (p * (p * 3)) = N / p * (N / p) := by
    rw [genData_length]
    exact Nat.mul_div_cancel _ (by positivity)
  rw [hquot]
  rfl

theorem getD_slice {α : Type} (l : List α) (a b i : Nat) (d : α)
    (hi : i < b) (hab : a + b ≤ l.length) :
    ((l.drop a).take b).getD i d = l.getD (a + i) d := by
  have h1 : i < ((l.drop a).take b).length := by
    simp
    omega
  have h2 : a + i < l.length := by omega
  rw [List.getD_eq_getElem _ _ h1, List.getD_eq_getElem _ _ h2]
  rw [List.getElem_take, List.getElem_drop]

theorem patchList_eq (D : List Int) (n p : Nat) :
    patchList ⟨[n, p, p, 3], D⟩ = (List.range n).map fun q =>
      ⟨[p, p, 3], (D.drop (q * (p * (p * 3)))).take (p * (p * 3))⟩ := by
  simp only [patchList]
  norm_num [List.prod_cons]

theorem genData_getD (d : List Int) (N p k r c ch : Nat)
    (hk : k < N / p * (N / p)) (hr : r < p) (hc : c < p) (hch : ch < 3) :
    (genData d N p).getD (((k * p + r) * p + c) * 3 + ch) 0
      = d.getD (((k / (N / p) * p + r) * N + (k % (N / p) * p + c)) * 3 + ch) 0 := by
  unfold genData
  simp only [flatMap_range_eq]
  have hm1 : c * 3 + ch < p * 3 := encode_lt p 3 c ch hc hch
  have hm2 : r * (p * 3) + (c * 3 + ch) < p * (p * 3) := encode_lt p (p * 3) r _ hr hm1
  have hM : ((k * p + r) * p + c) * 3 + ch
      = k * (p * (p * 3)) + (r * (p * 3) + (c * 3 + ch)) := by ring
  have hMlt : k * (p * (p * 3)) + (r * (p * 3) + (c * 3 + ch))
      < N / p * (N / p) * (p * (p * 3)) := encode_lt _ _ k _ hk hm2
  rw [hM, getD_map_range _ _ _ _ hMlt,
    encode_div _ _ _ hm2, encode_mod _ _ _ hm2,
    encode_div _ _ _ hm1, encode_mod _ _ _ hm1,
    encode_div 3 c ch hch, encode_mod 3 c ch hch]

theorem assemble_item (ordered : List Tensor) (height width ph pw c : Nat)
    (a b ch : Nat) (ha : a < height) (hb : b < width) (hch : ch < c) :
    (assemble ordered height width ph pw c).item [a, b, ch]
      = (ordered.getD (a / ph * (width / pw) + b / pw) default).item
          [a % ph, b % pw, ch] := by
  simp only [assemble, Tensor.item, flatIdx, List.zip_cons_cons, List.zip_nil_right,
    List.foldl_cons, List.foldl_nil, zero_mul, zero_add]
  simp only [flatMap_range_eq]
  have hu1 : b * c + ch < width * c := encode_lt width c b ch hb hch
  have hu : (a * width + b) * c + ch = a * (width * c) + (b * c + ch) := by ring
  have hult : a * (width * c) + (b * c + ch) < height * (width * c) :=
    encode_lt _ _ a _ ha hu1
  rw [hu, getD_map_range _ _ _ _ hult,
    encode_div _ _ _ hu1, encode_mod _ _ _ hu1,
    encode_div c b ch hch, encode_mod c b ch hch]

theorem flatMap_getD_grid {α : Type} (l : List α) (a b : Nat) (d : α)
    (hl : l.length = a * b) :
    ((List.range a).flatMap fun i => (List.range b).map fun j => l.getD (i * b + j) d)
      = l := by
  rw [flatMap_range_eq]
  simp only [Nat.div_add_mod']
  rw [← hl, map_getD_range]

theorem getD_grid3 {α : Type} (l : List α) (A B : Nat) (d : α)
    (hl : l.length = A * (B * 3)) :
    ((List.range A).flatMap fun i =>
      (List.range B).flatMap fun j =>
        (List.range 3).map fun ch => l.getD ((i * B + j) * 3 + ch) d) = l := by
  simp only [flatMap_range_eq]
  have hre : ∀ u : Nat, (u / (B * 3) * B + u % (B * 3) / 3) * 3 + u % (B * 3) % 3 = u := by
    intro u
    have h1 : u % (B * 3) / 3 * 3 + u % (B * 3) % 3 = u % (B * 3) := Nat.div_add_mod' _ _
    calc (u / (B * 3) * B + u % (B * 3) / 3) * 3 + u % (B * 3) % 3
        = u / (B * 3) * (B * 3) + (u % (B * 3) / 3 * 3 + u % (B * 3) % 3) := by ring
    _ = u / (B * 3) * (B * 3) + u % (B * 3) := by rw [h1]
    _ = u := Nat.div_add_mod' u (B * 3)
  simp only [hre]
  rw [← hl, map_getD_range]

theorem assemble_patchList (d : List Int) (N p : Nat)
    (hlen : d.length = N * N * 3) (hp : 0 < p) (hdvd : p ∣ N) :
    assemble (patchList ⟨[N / p * (N / p), p, p, 3], genData d N p⟩) N N p p 3
      = ⟨[N, N, 3], d⟩ := by
  set g := N / p with hgdef
  have hpg : p * g = N := Nat.mul_div_cancel' hdvd
  simp only [assemble, patchList_eq]
  congr 1
  refine Eq.trans (flatMap_congr _ _ _ fun i hi => flatMap_congr _ _ _ fun j hj =>
    List.map_congr_left fun ch hch => ?_) (getD_grid3 d N N 0 (by rw [hlen]; ring))
  have hi' : i < N := List.mem_range.mp hi
  have hj' : j < N := List.mem_range.mp hj
  have hch' : ch < 3 := List.mem_range.mp hch
  have hip : i / p < g := by
    apply Nat.div_lt_of_lt_mul
    rw [hpg]
    exact hi'
  have hjp : j / p < g := by
    apply Nat.div_lt_of_lt_mul
    rw [hpg]
    exact hj'
  have hq : i / p * g + j / p < g * g := encode_lt g g (i / p) (j / p) hip hjp
  rw [getD_map_range _ _ _ _ hq]
  simp only [Tensor.item, flatIdx, List.zip_cons_cons, List.zip_nil_right,
    List.foldl_cons, List.foldl_nil, zero_mul, zero_add]
  have hin1 : j % p * 3 + ch < p * 3 :=
    encode_lt p 3 (j % p) ch (Nat.mod_lt j hp) hch'
  have hin2 : (i % p * p + j % p) * 3 + ch < p * (p * 3) := by
    calc (i % p * p + j % p) * 3 + ch
        = i % p * (p * 3) + (j % p * 3 + ch) := by ring
    _ < p * (p * 3) := encode_lt p (p * 3) (i % p) _ (Nat.mod_lt i hp) hin1
  rw [getD_slice _ _ _ _ _ hin2 (by rw [genData_length]; calc
      (i / p * g + j / p) * (p * (p * 3)) + p * (p * 3)
        = (i / p * g + j / p + 1) * (p * (p * 3)) := by ring
    _ ≤ g * g * (p * (p * 3)) := Nat.mul_le_mul_right _ hq)]
  rw [show (i / p * g + j / p) * (p * (p * 3)) + ((i % p * p + j % p) * 3 + ch)
      = (((i / p * g + j / p) * p + i % p) * p + j % p) * 3 + ch from by ring]
  rw [genData_getD d N p _ _ _ _ hq (Nat.mod_lt i hp) (Nat.mod_lt j hp) hch']
  rw [encode_div g (i / p) (j / p) hjp, encode_mod g (i / p) (j / p) hjp]
  rw [Nat.div_add_mod' i p, Nat.div_add_mod' j p]

theorem gridBlocks_assemble (ordered : List Tensor) (N p : Nat)
    (_hp : 0 < p) (hdvd : p ∣ N)
    (hlen : ordered.length = N / p * (N / p))
    (hshape : ∀ t ∈ ordered, t.shape = [p, p, 3])
    (hdata : ∀ t ∈ ordered, t.data.length = p * (p * 3)) :
    gridBlocks (assemble ordered N N p p 3) p p = ordered := by
  set g := N / p with hgdef
  have hpg : p * g = N := Nat.mul_div_cancel' hdvd
  simp only [gridBlocks]
  refine Eq.trans (flatMap_congr _ _ _ fun i hi =>
    List.map_congr_left fun j hj => ?_) (flatMap_getD_grid ordered g g default hlen)
  have hi' : i < g := List.mem_range.mp hi
  have hj' : j < g := List.mem_range.mp hj
  have hq : i * g + j < g * g := encode_lt g g i j hi' hj'
  have hmem : ordered.getD (i * g + j) default ∈ ordered := by
    rw [List.getD_eq_getElem _ _ (by rw [hlen]; exact hq)]
    exact List.getElem_mem _
  have hbody : ∀ r < p, ∀ s2 < p, ∀ ch < 3,
      (assemble ordered N N p p 3).item [i * p + r, j * p + s2, ch]
        = (ordered.getD (i * g + j) default).data.getD ((r * p + s2) * 3 + ch) 0 := by
    intro r hr s2 hs2 ch hch
    have har : i * p + r < N := by
      rw [← hpg]
      calc i * p + r < g * p := encode_lt g p i r hi' hr
      _ = p * g := by ring
    have hbs : j * p + s2 < N := by
      rw [← hpg]
      calc j * p + s2 < g * p := encode_lt g p j s2 hj' hs2
      _ = p * g := by ring
    rw [assemble_item ordered N N p p 3 _ _ _ har hbs hch]
    rw [encode_div p i r hr, encode_mod p i r hr, encode_div p j s2 hs2,
      encode_mod p j s2 hs2]
    simp only [Tensor.item]
    rw [hshape _ hmem]
    simp only [flatIdx, List.zip_cons_cons, List.zip_nil_right, List.foldl_cons,
      List.foldl_nil, zero_mul, zero_add]
  rw [show (ordered.getD (i * g + j) default)
      = ⟨(ordered.getD (i * g + j) default).shape,
         (ordered.getD (i * g + j) default).data⟩ from rfl]
  congr 1
  · exact (hshape _ hmem).symm
  · refine Eq.trans (flatMap_congr _ _ _ fun r hr => flatMap_congr _ _ _ fun s2 hs2 =>
      List.map_congr_left fun ch hch => hbody r (List.mem_range.mp hr) s2
        (List.mem_range.mp hs2) ch (List.mem_range.mp hch))
      (getD_grid3 _ p p 0 (hdata _ hmem))

theorem reconstruct_identity_ok (ev : String → Tensor → Int) (P : Tensor)
    (height width : Nat) (measure : String) (n ph pw c : Nat)
    (hsh : P.shape = [n, ph, pw, c]) (hmeas : measure ∈ supportedMeasures)
    (hcond : 0 < ph ∧ 0 < pw ∧ ph ∣ height ∧ pw ∣ width ∧
      n = height / ph * (width / pw)) :
    reconstruct_from_patches ev P height width measure .identity =
      .ok (assemble (patchList P) height width ph pw c) := by
  simp only [reconstruct_from_patches, hsh]
  rw [if_pos hmeas, if_pos hcond]

theorem reconstruct_byMeasure_ok (ev : String → Tensor → Int) (P : Tensor)
    (height width : Nat) (measure : String) (n ph pw c : Nat)
    (hsh : P.shape = [n, ph, pw, c]) (hmeas : measure ∈ supportedMeasures)
    (hcond : 0 < ph ∧ 0 < pw ∧ ph ∣ height ∧ pw ∣ width ∧
      n = height / ph * (width / pw)) :
    reconstruct_from_patches ev P height width measure .byMeasure =
      .ok (assemble ((patchList P).mergeSort fun a b =>
            decide (ev measure a ≤ ev measure b)) height width ph pw c) := by
  simp only [reconstruct_from_patches, hsh]
  rw [if_pos hmeas, if_pos hcond]

theorem patchList_shape (D : List Int) (n p : Nat) :
    ∀ t ∈ patchList ⟨[n, p, p, 3], D⟩, t.shape = [p, p, 3] := by
  intro t ht
  rw [patchList_eq] at ht
  obtain ⟨q, hq, rfl⟩ := List.mem_map.mp ht
  rfl

theorem patchList_dataLength (D : List Int) (n p : Nat)
    (hD : D.length = n * (p * (p * 3))) :
    ∀ t ∈ patchList ⟨[n, p, p, 3], D⟩, t.data.length = p * (p * 3) := by
  intro t ht
  rw [patchList_eq] at ht
  obtain ⟨q, hq, rfl⟩ := List.mem_map.mp ht
  have hq' : q < n := List.mem_range.mp hq
  have hle : q * (p * (p * 3)) + p * (p * 3) ≤ n * (p * (p * 3)) := by
    calc q * (p * (p * 3)) + p * (p * 3) = (q + 1) * (p * (p * 3)) := by ring
    _ ≤ n * (p * (p * 3)) := Nat.mul_le_mul_right _ hq'
  simp [hD]
  omega

theorem patchList_length (D : List Int) (n p : Nat) :
    (patchList ⟨[n, p, p, 3], D⟩).length = n := by
  rw [patchList_eq]
  simp

theorem broadcastRev_self (s : List Nat) : broadcastRev s s = some s := by
  induction s with
  | nil => rfl
  | cons a as ih => simp [broadcastRev, ih]

theorem broadcastShapes_self (s : List Nat) : broadcastShapes s s = some s := by
  simp [broadcastShapes, broadcastRev_self]

theorem mem_allIdx {s idx : List Nat} :
    idx ∈ allIdx s ↔ List.Forall₂ (fun i d => i < d) idx s := by
  induction s generalizing idx with
  | nil =>
    simp only [allIdx, List.mem_singleton, List.forall₂_nil_right_iff]
  | cons d ds ih =>
    simp only [allIdx, List.mem_flatMap, List.mem_map, List.mem_range]
    constructor
    · rintro ⟨i, hi, idx', hidx', rfl⟩
      exact List.Forall₂.cons hi (ih.mp hidx')
    · intro h
      cases h with
      | cons hi hrest => exact ⟨_, hi, _, ih.mpr hrest, rfl⟩

theorem zip_mask_eq (s idx : List Nat)
    (h : List.Forall₂ (fun i d => i < d) idx s) :
    ((s.zip idx).map fun q => if q.1 = 1 then 0 else q.2) = idx := by
  induction h with
  | nil => rfl
  | cons hi hrest ih =>
    simp only [List.zip_cons_cons, List.map_cons, ih]
    congr 1
    split
    · omega
    · rfl

theorem bcastItem_self_shape (t : Tensor) (s : List Nat) (hs : t.shape = s)
    (idx : List Nat) (hidx : idx ∈ allIdx s) : bcastItem t idx = t.item idx := by
  have hf := mem_allIdx.mp hidx
  have hlen : idx.length = s.length := hf.length_eq
  simp only [bcastItem, hs, hlen, Nat.sub_self, List.drop_zero]
  rw [zip_mask_eq s idx hf]

theorem npEqual_same_shape (o r : Tensor) (h : o.shape = r.shape) :
    npEqual o r = some ⟨o.shape, (allIdx o.shape).map fun idx =>
      if o.item idx = r.item idx then 1 else 0⟩ := by
  have hb : broadcastShapes o.shape r.shape = some o.shape := by
    rw [h, broadcastShapes_self]
  unfold npEqual
  rw [hb]
  apply congrArg some
  congr 1
  apply List.map_congr_left
  intro idx hidx
  rw [bcastItem_self_shape o o.shape rfl idx hidx,
    bcastItem_self_shape r o.shape h.symm idx hidx]

theorem conserves_true_iff (o r : Tensor) (h : o.shape = r.shape) :
    reconstruction_conserves_data o r = some true ↔
      ∀ idx ∈ allIdx o.shape, o.item idx = r.item idx := by
  rw [reconstruction_conserves_data, npEqual_same_shape o r h]
  simp only [Option.map_some', Option.some.injEq, npAll, List.all_map,
    List.all_eq_true, Function.comp]
  constructor
  · intro hall idx hidx
    have hx := hall _ (List.mem_map_of_mem _ hidx)
    by_contra hne
    rw [if_neg hne] at hx
    simp at hx
  · intro hall x hx
    obtain ⟨idx, hidx, rfl⟩ := List.mem_map.mp hx
    simp [hall idx hidx]

theorem conserves_self (t : Tensor) :
    reconstruction_conserves_data t t = some true :=
  (conserves_true_iff t t rfl).mpr fun _ _ => rfl

theorem ok_bind {α β : Type} (x : α) (f : α → Except PipelineError β) :
    (Except.ok x >>= f) = f x := rfl

theorem except_map_ok {α β : Type} (f : α → β) (a : α) :
    (Except.ok a : Except PipelineError α).map f = .ok (f a) := rfl

/-- Claim C1: for every square image with side exactly divisible by a square
patch size, splitting with `generate_patches_v2` and reconstructing with
`reconstruct_from_patches` under the identity ordering (the `p_por`
composition) yields an image on which the data-conservation check returns
true. -/
theorem claim_C1 (ev : String → Tensor → Int) (image : Tensor) (N p : Nat)
    (measure : String) (hsh : image.shape = [N, N, 3])
    (hwf : image.data.length = N * N * 3) (hp : 0 < p) (hdvd : p ∣ N)
    (hmeas : measure ∈ supportedMeasures) :
    (p_por ev image N N measure .identity p p).map
        (fun R => reconstruction_conserves_data image R)
      = .ok (some true) := by
  unfold p_por
  rw [if_pos rfl, generate_patches_v2_eq image N p false hwf hp hdvd, ok_bind]
  rw [reconstruct_identity_ok ev _ N N measure (N / p * (N / p)) p p 3 rfl hmeas
    ⟨hp, hp, hdvd, hdvd, rfl⟩]
  rw [except_map_ok, assemble_patchList image.data N p hwf hp hdvd]
  rw [show (⟨[N, N, 3], image.data⟩ : Tensor) = image from by rw [← hsh]]
  rw [conserves_self]

/-- Claim C2: `generate_patches_v2` returns the non-overlapping block
decomposition in row-major grid order: the batch has shape
`[(N/p)*(N/p), p, p, 3]` and patch number `i*(N/p)+j` holds at `(r, c, ch)`
exactly the pixel `image[i*p+r, j*p+c, ch]`. -/
theorem claim_C2 (image : Tensor) (N p : Nat)
    (hsh : image.shape = [N, N, 3]) (hwf : image.data.length = N * N * 3)
    (hp : 0 < p) (hdvd : p ∣ N) (i j r c ch : Nat)
    (hi : i < N / p) (hj : j < N / p) (hr : r < p) (hc : c < p) (hch : ch < 3) :
    (generate_patches_v2 image N N p p false).map Tensor.shape
        = .ok [N / p * (N / p), p, p, 3]
      ∧ (generate_patches_v2 image N N p p false).map
          (fun P => P.item [i * (N / p) + j, r, c, ch])
        = .ok (image.item [i * p + r, j * p + c, ch]) := by
  rw [generate_patches_v2_eq image N p false hwf hp hdvd]
  refine ⟨rfl, ?_⟩
  rw [except_map_ok]
  congr 1
  simp only [Tensor.item, flatIdx, List.zip_cons_cons, List.zip_nil_right,
    List.foldl_cons, List.foldl_nil, zero_mul, zero_add, hsh]
  rw [genData_getD image.data N p (i * (N / p) + j) r c ch
    (encode_lt _ _ i j hi hj) hr hc hch]
  rw [encode_div (N / p) i j hj, encode_mod (N / p) i j hj]

/-- Claim C3: for every valid input, `generate_patches_v2` returns exactly
`(N/p)*(N/p)` patches of shape `(p, p, 3)` (a batch of shape
`[(N/p)*(N/p), p, p, 3]` with a full buffer); in particular a 224x224x3
image with patch size 56 yields the batch shape `[16, 56, 56, 3]`. -/
theorem claim_C3 (image : Tensor) (N p : Nat)
    (hwf : image.data.length = N * N * 3) (hp : 0 < p) (hdvd : p ∣ N) :
    (generate_patches_v2 image N N p p false).map Tensor.shape
        = .ok [N / p * (N / p), p, p, 3]
      ∧ (generate_patches_v2 image N N p p false).map (fun P => P.data.length)
        = .ok (N / p * (N / p) * (p * (p * 3)))
      ∧ (N = 224 → p = 56 →
          (generate_patches_v2 image N N p p false).map Tensor.shape
            = .ok [16, 56, 56, 3]) := by
  rw [generate_patches_v2_eq image N p false hwf hp hdvd]
  refine ⟨rfl, ?_, ?_⟩
  · rw [except_map_ok, genData_length]
  · rintro rfl rfl
    rw [except_map_ok]

/-- Claim C4: whenever the image is not square or the patch is not square,
`generate_patches_v2` fails with a shape error (the source assertion). -/
theorem claim_C4 (image : Tensor) (h w ph pw : Nat) (pad : Bool)
    (hne : h ≠ w ∨ ph ≠ pw) :
    generate_patches_v2 image h w ph pw pad = .error .shapeError := by
  unfold generate_patches_v2
  cases htr : tfReshape image [(h : Int), (w : Int), 3] with
  | none => rfl
  | some img =>
    simp only [liftShape_bind_some]
    rw [if_neg ?_]
    rintro ⟨h1, h2⟩
    rcases hne with hx | hx
    · exact hx h1
    · exact hx h2

/-- Claim C5: for every ordering strategy, measure and evaluator, the grid
blocks of the reconstructed image are a permutation (equal multiset) of the
patches produced by the split: no patch is duplicated or dropped. -/
theorem claim_C5 (ev : String → Tensor → Int) (image : Tensor) (N p : Nat)
    (measure : String) (ordering : OrderingStrategy) (P R : Tensor)
    (hwf : image.data.length = N * N * 3) (hp : 0 < p) (hdvd : p ∣ N)
    (hmeas : measure ∈ supportedMeasures)
    (hP : generate_patches_v2 image N N p p false = .ok P)
    (hR : reconstruct_from_patches ev P N N measure ordering = .ok R) :
    (gridBlocks R p p).Perm (patchList P) := by
  rw [generate_patches_v2_eq image N p false hwf hp hdvd] at hP
  obtain rfl : (⟨[N / p * (N / p), p, p, 3], genData image.data N p⟩ : Tensor) = P :=
    by injection hP
  have hgl : (genData image.data N p).length = N / p * (N / p) * (p * (p * 3)) :=
    genData_length image.data N p
  cases ordering with
  | identity =>
    rw [reconstruct_identity_ok ev _ N N measure (N / p * (N / p)) p p 3 rfl hmeas
      ⟨hp, hp, hdvd, hdvd, rfl⟩] at hR
    obtain rfl : _ = R := by injection hR
    rw [gridBlocks_assemble _ N p hp hdvd (patchList_length _ _ _)
      (patchList_shape _ _ _) (patchList_dataLength _ _ _ hgl)]
  | byMeasure =>
    rw [reconstruct_byMeasure_ok ev _ N N measure (N / p * (N / p)) p p 3 rfl hmeas
      ⟨hp, hp, hdvd, hdvd, rfl⟩] at hR
    obtain rfl : _ = R := by injection hR
    have hperm := List.mergeSort_perm
      (patchList ⟨[N / p * (N / p), p, p, 3], genData image.data N p⟩)
      (fun a b => decide (ev measure a ≤ ev measure b))
    rw [gridBlocks_assemble _ N p hp hdvd
      (by rw [hperm.length_eq]; exact patchList_length _ _ _)
      (fun t ht => patchList_shape _ _ _ t (hperm.mem_iff.mp ht))
      (fun t ht => patchList_dataLength _ _ _ hgl t (hperm.mem_iff.mp ht))]
    exact hperm

/-- Claim C6: the `pad` flag of `generate_patches_v2` has no observable
effect: both branches perform the identical call, so the output with
`pad = true` equals the output with `pad = false`. -/
theorem claim_C6 (image : Tensor) (input_h input_w patch_h patch_w : Nat) :
    generate_patches_v2 image input_h input_w patch_h patch_w true
      = generate_patches_v2 image input_h input_w patch_h patch_w false := rfl

/-- Claim C9: the tensor-based check `image_data_conserved`
(`tf.reduce_all(tf.math.equal(...))`) and the numpy-based check
`reconstruction_conserves_data` (`np.all(np.equal(...))`) agree on every
pair of arrays: both are broadcasting elementwise equality reduced by
universal conjunction. -/
theorem claim_C9 (o r : Tensor) :
    image_data_conserved o r = reconstruction_conserves_data o r := rfl

/-- Claim C10: there exist arrays of different shapes on which
`reconstruction_conserves_data` returns true: the check broadcasts and never
compares shapes, so a `(1, w, 3)` reconstruction whose row matches every row
of a `(h, w, 3)` original is reported as conserving the data. -/
theorem claim_C10 : ∃ o r : Tensor, o.shape ≠ r.shape ∧
    reconstruction_conserves_data o r = some true :=
  ⟨⟨[2, 1, 3], [5, 6, 7, 5, 6, 7]⟩, ⟨[1, 1, 3], [5, 6, 7]⟩, by decide, by decide⟩

/-- Claim C7 is refuted as universally stated: the data-conservation check
returns true on a concrete pair of arrays that are not equal (they do not
even share a shape), because the comparison broadcasts. -/
theorem claim_C7_counterexample :
    reconstruction_conserves_data ⟨[2, 2, 3], [1, 2, 3, 4, 5, 6, 1, 2, 3, 4, 5, 6]⟩
        ⟨[1, 2, 3], [1, 2, 3, 4, 5, 6]⟩ = some true
      ∧ (⟨[2, 2, 3], [1, 2, 3, 4, 5, 6, 1, 2, 3, 4, 5, 6]⟩ : Tensor)
        ≠ ⟨[1, 2, 3], [1, 2, 3, 4, 5, 6]⟩ :=
  ⟨by decide, by decide⟩

/-- Claim C7 (amended): for every pair of images of the same shape, each
data-conservation check returns true exactly when every pixel of the
original equals the corresponding pixel of the reconstruction. -/
theorem claim_C7 (o r : Tensor) (h : o.shape = r.shape) :
    (reconstruction_conserves_data o r = some true ↔
        ∀ idx ∈ allIdx o.shape, o.item idx = r.item idx)
      ∧ (image_data_conserved o r = some true ↔
        ∀ idx ∈ allIdx o.shape, o.item idx = r.item idx) := by
  constructor
  · exact conserves_true_iff o r h
  · rw [show image_data_conserved o r = reconstruction_conserves_data o r from rfl]
    exact conserves_true_iff o r h

/-- Witness for C7 at a concrete same-shaped pair. -/
theorem claim_C7_witness :
    (⟨[1, 2, 3], [9, 8, 7, 6, 5, 4]⟩ : Tensor).shape
        = (⟨[1, 2, 3], [9, 8, 7, 6, 5, 4]⟩ : Tensor).shape
      ∧ ((reconstruction_conserves_data ⟨[1, 2, 3], [9, 8, 7, 6, 5, 4]⟩
            ⟨[1, 2, 3], [9, 8, 7, 6, 5, 4]⟩ = some true ↔
          ∀ idx ∈ allIdx (⟨[1, 2, 3], [9, 8, 7, 6, 5, 4]⟩ : Tensor).shape,
            Tensor.item ⟨[1, 2, 3], [9, 8, 7, 6, 5, 4]⟩ idx
              = Tensor.item ⟨[1, 2, 3], [9, 8, 7, 6, 5, 4]⟩ idx)
        ∧ (image_data_conserved ⟨[1, 2, 3], [9, 8, 7, 6, 5, 4]⟩
            ⟨[1, 2, 3], [9, 8, 7, 6, 5, 4]⟩ = some true ↔
          ∀ idx ∈ allIdx (⟨[1, 2, 3], [9, 8, 7, 6, 5, 4]⟩ : Tensor).shape,
            Tensor.item ⟨[1, 2, 3], [9, 8, 7, 6, 5, 4]⟩ idx
              = Tensor.item ⟨[1, 2, 3], [9, 8, 7, 6, 5, 4]⟩ idx)) :=
  ⟨rfl, claim_C7 ⟨[1, 2, 3], [9, 8, 7, 6, 5, 4]⟩ ⟨[1, 2, 3], [9, 8, 7, 6, 5, 4]⟩ rfl⟩

/-- Claim C8: an unrecognized measure identifier makes
`reconstruct_from_patches` fail with `UnsupportedMeasureError`; with a
recognized measure, a patch count different from
`(height/ph)*(width/pw)` makes it fail with `ShapeError`. -/
theorem claim_C8 (ev : String → Tensor → Int) (patches : Tensor)
    (height width : Nat) (measure : String) (ordering : OrderingStrategy)
    (n ph pw c : Nat) :
    (measure ∉ supportedMeasures →
        reconstruct_from_patches ev patches height width measure ordering
          = .error .unsupportedMeasureError)
      ∧ (measure ∈ supportedMeasures → patches.shape = [n, ph, pw, c] →
          n ≠ height / ph * (width / pw) →
          reconstruct_from_patches ev patches height width measure ordering
            = .error .shapeError) := by
  constructor
  · intro hm
    simp only [reconstruct_from_patches]
    rw [if_neg hm]
  · intro hm hsh hn
    simp only [reconstruct_from_patches, hsh]
    rw [if_pos hm, if_neg ?_]
    rintro ⟨-, -, -, -, h5⟩
    exact hn h5

/-- Witness for C8: the unknown measure `"BOGUS"` and a 2-patch batch offered
for a 1-cell grid. -/
theorem claim_C8_witness :
    ("BOGUS" ∉ supportedMeasures
        ∧ reconstruct_from_patches (fun _ _ => 0) ⟨[1, 1, 1, 3], [0, 0, 0]⟩ 1 1
            "BOGUS" .identity = .error .unsupportedMeasureError)
      ∧ ("KL" ∈ supportedMeasures
        ∧ (⟨[2, 1, 1, 3], [0, 0, 0, 0, 0, 0]⟩ : Tensor).shape = [2, 1, 1, 3]
        ∧ 2 ≠ 1 / 1 * (1 / 1)
        ∧ reconstruct_from_patches (fun _ _ => 0) ⟨[2, 1, 1, 3], [0, 0, 0, 0, 0, 0]⟩
            1 1 "KL" .identity = .error .shapeError) :=
  ⟨⟨by decide,
    (claim_C8 (fun _ _ => 0) ⟨[1, 1, 1, 3], [0, 0, 0]⟩ 1 1 "BOGUS" .identity
      1 1 1 3).1 (by decide)⟩,
   ⟨by decide, rfl, by decide,
    (claim_C8 (fun _ _ => 0) ⟨[2, 1, 1, 3], [0, 0, 0, 0, 0, 0]⟩ 1 1 "KL" .identity
      2 1 1 3).2 (by decide) rfl (by decide)⟩⟩

/-- Witness for C1 at the 2 x 2 image with patch size 1. -/
theorem claim_C1_witness :
    imgW.shape = [2, 2, 3] ∧ imgW.data.length = 2 * 2 * 3 ∧ (0 : Nat) < 1
      ∧ 1 ∣ 2 ∧ "SSIM" ∈ supportedMeasures
      ∧ (p_por (fun _ _ => 0) imgW 2 2 "SSIM" .identity 1 1).map
          (fun R => reconstruction_conserves_data imgW R) = .ok (some true) :=
  ⟨rfl, by decide, by decide, ⟨2, rfl⟩, by decide,
    claim_C1 (fun _ _ => 0) imgW 2 1 "SSIM" rfl (by decide) (by decide)
      ⟨2, rfl⟩ (by decide)⟩

/-- Witness for C2 at the 2 x 2 image, patch size 1, patch (1,1), channel 2. -/
theorem claim_C2_witness :
    imgW.shape = [2, 2, 3] ∧ imgW.data.length = 2 * 2 * 3 ∧ (0 : Nat) < 1
      ∧ 1 ∣ 2 ∧ 1 < 2 / 1 ∧ 0 < 1 ∧ 2 < 3
      ∧ ((generate_patches_v2 imgW 2 2 1 1 false).map Tensor.shape
          = .ok [2 / 1 * (2 / 1), 1, 1, 3]
        ∧ (generate_patches_v2 imgW 2 2 1 1 false).map
            (fun P => P.item [1 * (2 / 1) + 1, 0, 0, 2])
          = .ok (imgW.item [1 * 1 + 0, 1 * 1 + 0, 2])) :=
  ⟨rfl, by decide, by decide, ⟨2, rfl⟩, by decide, by decide, by decide,
    claim_C2 imgW 2 1 rfl (by decide) (by decide) ⟨2, rfl⟩ 1 1 0 0 2
      (by decide) (by decide) (by decide) (by decide) (by decide)⟩

/-- Witness for C3 at the 224 x 224 image with patch size 56: 16 patches of
shape 56 x 56 x 3. -/
theorem claim_C3_witness :
    zeros224.data.length = 224 * 224 * 3 ∧ (0 : Nat) < 56 ∧ 56 ∣ 224
      ∧ (generate_patches_v2 zeros224 224 224 56 56 false).map Tensor.shape
          = .ok [16, 56, 56, 3] :=
  ⟨by rw [show zeros224.data = List.replicate (224 * 224 * 3) 0 from rfl,
      List.length_replicate], by decide, ⟨4, rfl⟩,
    (claim_C3 zeros224 224 56 (by rw [show zeros224.data
        = List.replicate (224 * 224 * 3) 0 from rfl, List.length_replicate])
      (by decide) ⟨4, rfl⟩).2.2 rfl rfl⟩

/-- Witness for C4: splitting a 224 x 225 (non-square) image fails with a
shape error. -/
theorem claim_C4_witness :
    (224 ≠ 225 ∨ 56 ≠ 56)
      ∧ generate_patches_v2 imgW 224 225 56 56 false = .error .shapeError :=
  ⟨Or.inl (by decide), claim_C4 imgW 224 225 56 56 false (Or.inl (by decide))⟩

/-- Witness for C5 at the 2 x 2 image with patch size 1 under the identity
ordering and the KL measure. -/
theorem claim_C5_witness :
    imgW.data.length = 2 * 2 * 3 ∧ (0 : Nat) < 1 ∧ 1 ∣ 2
      ∧ "KL" ∈ supportedMeasures
      ∧ generate_patches_v2 imgW 2 2 1 1 false
          = .ok ⟨[4, 1, 1, 3], List.replicate 12 0⟩
      ∧ reconstruct_from_patches (fun _ _ => 0) ⟨[4, 1, 1, 3], List.replicate 12 0⟩
          2 2 "KL" .identity = .ok ⟨[2, 2, 3], List.replicate 12 0⟩
      ∧ (gridBlocks ⟨[2, 2, 3], List.replicate 12 0⟩ 1 1).Perm
          (patchList ⟨[4, 1, 1, 3], List.replicate 12 0⟩) :=
  ⟨by decide, by decide, ⟨2, rfl⟩, by decide, by rfl, by rfl,
    claim_C5 (fun _ _ => 0) imgW 2 1 "KL" .identity
      ⟨[4, 1, 1, 3], List.replicate 12 0⟩ ⟨[2, 2, 3], List.replicate 12 0⟩
      (by decide) (by decide) ⟨2, rfl⟩ (by decide) (by rfl) (by rfl)⟩
